import Mathlib

/-!
Verification development for the Rick-and-Morty ingestion pipeline
(`fetchers2.py`, `extractors.py`, `db_helpers.py`, `main.py`).

Python values are shallowly embedded as an inductive `PyVal`; Python dicts
with string keys become association lists `List (String × PyVal)`; code that
can raise becomes `Except String`; the database tables become in-memory lists
of rows.
-/

namespace RickMorty

/-- A Python/JSON value as it flows through the pipeline: `None`, an integer,
a string, a list, or a string-keyed dict (association list, insertion order
preserved as in Python dicts). -/
inductive PyVal : Type where
  | none : PyVal
  | int  : Int → PyVal
  | str  : String → PyVal
  | list : List PyVal → PyVal
  | dict : List (String × PyVal) → PyVal
  deriving Repr

mutual

/-- Structural (Python `==`) equality test on embedded values. -/
def PyVal.beq : PyVal → PyVal → Bool
  | .none, .none => true
  | .int m, .int n => m == n
  | .str s, .str t => s == t
  | .list xs, .list ys => PyVal.beqList xs ys
  | .dict xs, .dict ys => PyVal.beqDict xs ys
  | _, _ => false

/-- Elementwise equality test on lists of embedded values. -/
def PyVal.beqList : List PyVal → List PyVal → Bool
  | [], [] => true
  | x :: xs, y :: ys => PyVal.beq x y && PyVal.beqList xs ys
  | _, _ => false

/-- Entrywise equality test on string-keyed association lists. -/
def PyVal.beqDict : List (String × PyVal) → List (String × PyVal) → Bool
  | [], [] => true
  | (k, v) :: xs, (l, w) :: ys => k == l && PyVal.beq v w && PyVal.beqDict xs ys
  | _, _ => false

end

mutual

/-- `PyVal.beq` decides propositional equality. -/
def PyVal.beq_iff : ∀ (a b : PyVal), PyVal.beq a b = true ↔ a = b
  | .none, b => by cases b <;> simp [PyVal.beq]
  | .int m, b => by cases b <;> simp [PyVal.beq]
  | .str s, b => by cases b <;> simp [PyVal.beq]
  | .list xs, .list ys => by simp [PyVal.beq, PyVal.beqList_iff xs ys]
  | .list xs, .none => by simp [PyVal.beq]
  | .list xs, .int n => by simp [PyVal.beq]
  | .list xs, .str s => by simp [PyVal.beq]
  | .list xs, .dict kvs => by simp [PyVal.beq]
  | .dict kvs, .dict lws => by simp [PyVal.beq, PyVal.beqDict_iff kvs lws]
  | .dict kvs, .none => by simp [PyVal.beq]
  | .dict kvs, .int n => by simp [PyVal.beq]
  | .dict kvs, .str s => by simp [PyVal.beq]
  | .dict kvs, .list xs => by simp [PyVal.beq]

/-- `PyVal.beqList` decides propositional equality. -/
def PyVal.beqList_iff : ∀ (xs ys : List PyVal), PyVal.beqList xs ys = true ↔ xs = ys
  | [], ys => by cases ys <;> simp [PyVal.beqList]
  | x :: xs, [] => by simp [PyVal.beqList]
  | x :: xs, y :: ys => by
      simp [PyVal.beqList, PyVal.beq_iff x y, PyVal.beqList_iff xs ys]

/-- `PyVal.beqDict` decides propositional equality. -/
def PyVal.beqDict_iff :
    ∀ (xs ys : List (String × PyVal)), PyVal.beqDict xs ys = true ↔ xs = ys
  | [], ys => by cases ys <;> simp [PyVal.beqDict]
  | kv :: xs, [] => by simp [PyVal.beqDict]
  | (k, v) :: xs, (l, w) :: ys => by
      simp [PyVal.beqDict, PyVal.beq_iff v w, PyVal.beqDict_iff xs ys, Prod.ext_iff]

end

instance : DecidableEq PyVal := fun a b => decidable_of_iff _ (PyVal.beq_iff a b)

/-- A raw record / Python dict with string keys (e.g. one JSON object). -/
abbrev RawRecord := List (String × PyVal)

/-- First binding of key `k` (Python dicts have unique keys). -/
def dGet? : RawRecord → String → Option PyVal
  | [], _ => Option.none
  | kv :: rest, k => if kv.1 = k then Option.some kv.2 else dGet? rest k

/-- Python `d.get(k)`: the value, or `None` when the key is absent. -/
def pyGet (d : RawRecord) (k : String) : PyVal :=
  (dGet? d k).getD .none

/-- Python `d.get(k, default)`. -/
def pyGetD (d : RawRecord) (k : String) (dflt : PyVal) : PyVal :=
  (dGet? d k).getD dflt

/-- Python `d[k]`: raises `KeyError` when the key is absent. -/
def pyIndex (d : RawRecord) (k : String) : Except String PyVal :=
  match dGet? d k with
  | Option.some v => .ok v
  | Option.none => .error ("KeyError: " ++ k)

/-- Python `d[k] = v`: overwrite in place when present, append otherwise
(Python dicts keep the original insertion position on overwrite). -/
def dSet (d : RawRecord) (k : String) (v : PyVal) : RawRecord :=
  match d with
  | [] => [(k, v)]
  | kv :: rest => if kv.1 = k then (k, v) :: rest else kv :: dSet rest k v

/-- A dict keyed by Python values (the `name → id` lookup tables built by
`build_location_lookup`; Python compares keys with `==`). -/
abbrev PyLookup := List (PyVal × PyVal)

/-- First value bound to key `k` in a value-keyed dict. -/
def pvFind : PyLookup → PyVal → Option PyVal
  | [], _ => Option.none
  | kv :: rest, k => if kv.1 = k then Option.some kv.2 else pvFind rest k

/-- `d[k] = v` on a value-keyed dict: overwrite in place or append. -/
def pvSet (d : PyLookup) (k : PyVal) (v : PyVal) : PyLookup :=
  match d with
  | [] => [(k, v)]
  | kv :: rest => if kv.1 = k then (k, v) :: rest else kv :: pvSet rest k v

/-- Python `lookup.get(k)` on a value-keyed dict: `None` when absent. -/
def lookupGet (d : PyLookup) (k : PyVal) : PyVal :=
  (pvFind d k).getD .none

section StringHelpers

/-- Split a character list at every occurrence of `c` (Python `s.split(c)`:
no merging of adjacent separators, an empty input gives one empty piece). -/
def splitOnChar (c : Char) : List Char → List (List Char)
  | [] => [[]]
  | x :: xs =>
    match splitOnChar c xs with
    | [] => [[x]]
    | h :: t => if x = c then [] :: h :: t else (x :: h) :: t

/-- Remove leading characters satisfying `p` (Python `lstrip`). -/
def lstripWhile (p : Char → Bool) (cs : List Char) : List Char :=
  cs.dropWhile p

/-- Remove trailing characters satisfying `p` (Python `rstrip`). -/
def rstripWhile (p : Char → Bool) (cs : List Char) : List Char :=
  ((cs.reverse).dropWhile p).reverse

/-- Python `s.strip(chars)` for a character-set predicate: strip both ends. -/
def stripWhile (p : Char → Bool) (cs : List Char) : List Char :=
  rstripWhile p (lstripWhile p cs)

/-- Tail of the digit validation: after at least one digit has been seen. -/
def validDigitsRest : List Char → Bool
  | [] => true
  | '_' :: c :: cs => c.isDigit && validDigitsRest cs
  | '_' :: [] => false
  | c :: cs => c.isDigit && validDigitsRest cs

/-- Validate Python 3 integer-literal digits: nonempty digit groups with
single underscores strictly between digits. -/
def validDigits : List Char → Bool
  | [] => false
  | c :: cs => c.isDigit && validDigitsRest cs

/-- Numeric value of a validated digit string (underscores skipped). -/
def digitsVal (cs : List Char) : Nat :=
  (cs.filter (fun c => c ≠ '_')).foldl (fun a c => a * 10 + (c.toNat - 48)) 0

/-- Python `int(s)`: optional surrounding whitespace, optional sign, then
digits (with Python 3 underscore grouping); anything else raises
`ValueError`. -/
def pyIntOfString (s : String) : Except String Int :=
  let cs := stripWhile Char.isWhitespace s.toList
  let (neg, body) :=
    match cs with
    | '-' :: rest => (true, rest)
    | '+' :: rest => (false, rest)
    | _ => (false, cs)
  if validDigits body then
    .ok (if neg then -(digitsVal body : Int) else (digitsVal body : Int))
  else
    .error ("ValueError: invalid literal for int: " ++ s)

end StringHelpers

section Extractors

/-- `char.get(field, {}).get("name")` from `extract_character_info`: an absent
key defaults to the empty dict (so the inner `.get` yields `None`); a present
value that is not a dict (e.g. Python `None`) raises `AttributeError`. -/
def getNestedName (char : RawRecord) (field : String) : Except String PyVal :=
  match dGet? char field with
  | Option.none => .ok .none
  | Option.some (.dict kvs) => .ok (pyGet kvs "name")
  | Option.some _ => .error "AttributeError"

/-- `extract_character_info(char)` from `extractors.py`; `now` stands for the
string `datetime.now().isoformat(sep=" ", timespec="seconds")`. -/
def extract_character_info (char : RawRecord) (now : String) :
    Except String RawRecord := do
  let origin ← getNestedName char "origin"
  let location ← getNestedName char "location"
  .ok [("id", pyGet char "id"),
       ("name", pyGet char "name"),
       ("status", pyGet char "status"),
       ("species", pyGet char "species"),
       ("gender", pyGet char "gender"),
       ("origin", origin),
       ("location", location),
       ("image", pyGet char "image"),
       ("created", pyGet char "created"),
       ("created_by_ini", .str now)]

/-- `extract_location_info(loc)` from `extractors.py`; `now` stands for the
`datetime.now()` ingestion timestamp string. -/
def extract_location_info (loc : RawRecord) (now : String) : RawRecord :=
  [("id", pyGet loc "id"),
   ("name", pyGet loc "name"),
   ("type", pyGet loc "type"),
   ("residents", pyGet loc "residents"),
   ("dimension", pyGet loc "dimension"),
   ("url", pyGet loc "url"),
   ("created", .str now)]

/-- `extract_episode_info(ep)` from `extractors.py`; `now` stands for the
`datetime.now().isoformat()` ingestion timestamp string. -/
def extract_episode_info (ep : RawRecord) (now : String) : RawRecord :=
  [("id", pyGet ep "id"),
   ("name", pyGet ep "name"),
   ("air_date", pyGet ep "air_date"),
   ("episode", pyGet ep "episode"),
   ("characters", pyGet ep "characters"),
   ("url", pyGet ep "url"),
   ("created", .str now)]

/-- One step of the dict comprehension in `build_location_lookup`: evaluate
`loc["name"]` and `loc["id"]` (each may raise `KeyError`) and bind the name
to the id, overwriting any earlier binding of the same name. -/
def location_lookup_step (acc : PyLookup) (loc : RawRecord) :
    Except String PyLookup := do
  let nm ← pyIndex loc "name"
  let idv ← pyIndex loc "id"
  .ok (pvSet acc nm idv)

/-- `build_location_lookup(locations)` from `extractors.py`: the dict
comprehension `\x7bloc["name"]: loc["id"] for loc in locations\x7d` —
later entries with the same name silently overwrite earlier ones. -/
def build_location_lookup (locations : List RawRecord) :
    Except String PyLookup :=
  locations.foldlM location_lookup_step []

/-- `parse_pg_array(pg_array)` from `extractors.py`: a native list is
returned as is; a string is stripped of `\x7b`/`\x7d` at both ends and split
on commas; any other value yields the empty list. -/
def parse_pg_array (pg_array : PyVal) : List PyVal :=
  match pg_array with
  | .list xs => xs
  | .str s =>
      ((splitOnChar ','
          (stripWhile (fun c => c = Char.ofNat 123 || c = Char.ofNat 125)
            s.toList)).map
        (fun cs => PyVal.str (String.mk cs)))
  | _ => []

end Extractors

section Persister

/-- A stored row of one relational table (column name → value). -/
abbrev Row := List (String × PyVal)

/-- The in-memory model of one database table: its rows in insertion order. -/
abbrev Table := List Row

/-- The value of a row's `id` column, the upsert key of
`ON CONFLICT (id) DO UPDATE`. -/
def rowKey (r : Row) : Option PyVal := dGet? r "id"

/-- `ON CONFLICT (id) DO UPDATE SET col = EXCLUDED.col` for every non-`id`
column of the incoming row: the stored row keeps its shape, non-`id` columns
listed in the insert are overwritten from the incoming values. -/
def applyConflictUpdate (old new : Row) : Row :=
  old.map (fun kv =>
    if kv.1 ≠ "id" ∧ new.any (fun nv => nv.1 = kv.1) then (kv.1, pyGet new kv.1)
    else kv)

/-- One `INSERT ... ON CONFLICT (id) DO UPDATE` statement against the table:
update the (unique) row with the same `id` in place, else append. -/
def upsertRow : Table → Row → Table
  | [], new => [new]
  | r :: rs, new =>
      if rowKey r = rowKey new then applyConflictUpdate r new :: rs
      else r :: upsertRow rs new

/-- Some row of the table has upsert key `k`. -/
def containsKey (t : Table) (k : Option PyVal) : Prop :=
  ∃ r ∈ t, rowKey r = k

/-- The `execute_batch` loop of `batch_insert`: run the upsert statement
once per incoming row, in order. -/
def upsertFold (t : Table) (rows : List Row) : Table :=
  rows.foldl upsertRow t

/-- The column names of a row, in order. -/
def keysOf (r : Row) : List String :=
  r.map (fun kv => kv.1)

/-- `batch_insert(conn, table, data, columns)` from `db_helpers.py` acting on
the named table's state `t`: a no-op on empty data (only a warning is
logged); otherwise `values = [[row[col] for col in columns] for row in data]`
is evaluated first (raising `KeyError` on a missing column) and then each
row is upserted keyed on `id`. -/
def batch_insert (t : Table) (data : List RawRecord) (columns : List String) :
    Except String Table :=
  if data.isEmpty then .ok t
  else do
    let values ← data.mapM (fun row => columns.mapM (fun c => pyIndex row c))
    .ok (upsertFold t (values.map (fun vals => columns.zip vals)))

/-- The column list of the `characters` insert in
`insert_characters_with_fk`. -/
def character_columns : List String :=
  ["id", "name", "status", "species", "gender", "location_id", "image",
   "created", "created_by_ini"]

/-- The loop body of `insert_characters_with_fk`:
`char["location_id"] = locations_lookup.get(char.get("location"))` — the
looked-up id, or `None` when the free-text location name is absent from the
lookup. -/
def resolve_character_location (locations_lookup : PyLookup)
    (char : RawRecord) : RawRecord :=
  dSet char "location_id" (lookupGet locations_lookup (pyGet char "location"))

/-- `insert_characters_with_fk(conn, characters, locations_lookup)` from
`db_helpers.py`: every character dict is mutated in place with
`char["location_id"] = locations_lookup.get(char.get("location"))`, then the
list is batch-upserted. The first component is the mutated list (the same
list object the caller later writes to CSV); the second is the resulting
`characters` table state. -/
def insert_characters_with_fk (t : Table) (characters : List RawRecord)
    (locations_lookup : PyLookup) : List RawRecord × Except String Table :=
  let chars := characters.map (resolve_character_location locations_lookup)
  (chars, batch_insert t chars character_columns)

/-- Concrete scenario for foreign-key resolution: the two raw locations
`⟨id 10, Earth⟩` and `⟨id 20, Mars⟩`. -/
def c8_raw_locations : List RawRecord :=
  [[("id", .int 10), ("name", .str "Earth")],
   [("id", .int 20), ("name", .str "Mars")]]

/-- Concrete scenario: the two locations after normalization. -/
def c8_locations : List RawRecord :=
  c8_raw_locations.map (fun l => extract_location_info l "2025-09-16 13:05:17")

/-- Concrete scenario: the raw character `⟨id 5, Rick⟩` whose location
object is named `Earth`. -/
def c8_raw_rick : RawRecord :=
  [("id", .int 5), ("name", .str "Rick"),
   ("location", .dict [("name", .str "Earth")])]

/-- A stored relationship row `(parent_id, child_id, url)`. -/
abbrev RelRow := Int × Int × String

/-- A relationship link table with a uniqueness constraint on
`(parent_id, child_id)`. -/
abbrev RelTable := List RelRow

/-- One element of the comprehension in `insert_relations`:
`(parent_id, int(url.rstrip('/').split('/')[-1]), url)`. A non-string url
raises `AttributeError`; a non-numeric trailing segment raises `ValueError`
from `int()`. -/
def resolve_relation (parent_id : Int) (url : PyVal) : Except String RelRow :=
  match url with
  | .str s => do
      let segs := splitOnChar '/' (rstripWhile (fun c => c = '/') s.toList)
      let cid ← pyIntOfString (String.mk (segs.getLastD []))
      .ok (parent_id, cid, s)
  | _ => .error "AttributeError"

/-- `INSERT ... ON CONFLICT DO NOTHING` for one relationship row: skipped
when a row with the same `(parent_id, child_id)` already exists. -/
def insertIgnore (t : RelTable) (row : RelRow) : RelTable :=
  if t.any (fun r => r.1 = row.1 ∧ r.2.1 = row.2.1) then t else t ++ [row]

/-- `insert_relations(conn, table, parent_id, related_urls, ...)` from
`db_helpers.py` acting on the link table's state `t`: parse the url value,
return unchanged when no urls, resolve the whole comprehension (one bad url
fails the whole call before anything is inserted), then insert the resolved
rows with conflicts ignored. -/
def insert_relations (t : RelTable) (parent_id : Int) (related_urls : PyVal) :
    Except String RelTable :=
  let urls := parse_pg_array related_urls
  if urls.isEmpty then .ok t
  else do
    let data ← urls.mapM (resolve_relation parent_id)
    .ok (data.foldl insertIgnore t)

end Persister

section Fetchers

/-- `MAX_RETRIES` from `fetchers2.py`. -/
def MAX_RETRIES : Nat := 5

/-- `BACKOFF_FACTOR` from `fetchers2.py` (1.5 seconds, exactly 3/2). -/
def BACKOFF_FACTOR : ℚ := 3 / 2

/-- The outcome of one HTTP GET attempt: a response with a status code and
parsed JSON body, an `aiohttp.ClientError`, or an `asyncio.TimeoutError`. -/
inductive NetResult : Type where
  | response (status : Nat) (json : PyVal) : NetResult
  | clientError : NetResult
  | timeout : NetResult
  deriving DecidableEq, Repr

/-- An attempt that takes the retry path in `fetch_page`/`get_total_pages`:
a non-200 status, a client error, or a timeout. -/
def NetResult.isFailure : NetResult → Bool
  | .response status _ => status ≠ 200
  | .clientError => true
  | .timeout => true

/-- What one call to `fetch_page`/`get_total_pages` did: the value returned
(or the exception raised), the `asyncio.sleep` backoff durations in order,
how many attempts were issued, and whether the final `all attempts failed`
error was logged. -/
structure FetchOutcome : Type where
  result : Except String PyVal
  sleeps : List ℚ
  attemptsMade : Nat
  errorLogged : Bool
  deriving Repr

/-- The `response.status == 200` test of the loop body: the JSON body when
the attempt got a 200 response, `none` on the retry path. -/
def NetResult.successJson : NetResult → Option PyVal
  | .response status json => if status = 200 then Option.some json else Option.none
  | .clientError => Option.none
  | .timeout => Option.none

/-- The retry loop shared by `fetch_page` and `get_total_pages`: `net a` is
the outcome of attempt `a` (1-based), `onSuccess` is the body run on a
status-200 response (it may itself raise), `degraded` is the value returned
after the final failed attempt. Every failed attempt logs a warning and then
sleeps `BACKOFF_FACTOR ** (attempt - 1)` — including the last one, after
which the error is logged and the degraded value returned. -/
def retry_loop (net : Nat → NetResult) (onSuccess : PyVal → Except String PyVal)
    (degraded : PyVal) : Nat → Nat → FetchOutcome
  | 0, _ => ⟨.ok degraded, [], 0, true⟩
  | fuel + 1, attempt =>
    match (net attempt).successJson with
    | Option.some json => ⟨onSuccess json, [], 1, false⟩
    | Option.none =>
        let rest := retry_loop net onSuccess degraded fuel (attempt + 1)
        ⟨rest.result, BACKOFF_FACTOR ^ (attempt - 1) :: rest.sleeps,
         rest.attemptsMade + 1, rest.errorLogged⟩

/-- `data.get("results", [])` on the parsed JSON of a 200 response in
`fetch_page`: a non-dict body raises `AttributeError`. -/
def page_results (json : PyVal) : Except String PyVal :=
  match json with
  | .dict kvs => .ok (pyGetD kvs "results" (.list []))
  | _ => .error "AttributeError"

/-- `data["info"]["pages"]` on the parsed JSON of a 200 response in
`get_total_pages`: indexing a non-dict raises `TypeError`, a missing key
raises `KeyError`. -/
def info_pages (json : PyVal) : Except String PyVal :=
  match json with
  | .dict kvs => do
      match ← pyIndex kvs "info" with
      | .dict info => pyIndex info "pages"
      | _ => .error "TypeError"
  | _ => .error "TypeError"

/-- `fetch_page(session, base_url, page)` from `fetchers2.py`, with the
network abstracted as the per-attempt oracle `net`: up to `MAX_RETRIES`
attempts, empty list after exhaustion. -/
def fetch_page (net : Nat → NetResult) : FetchOutcome :=
  retry_loop net page_results (.list []) MAX_RETRIES 1

/-- `get_total_pages(session, base_url)` from `fetchers2.py`, with the
network abstracted as the per-attempt oracle `net`: up to `MAX_RETRIES`
attempts, `0` after exhaustion. -/
def get_total_pages (net : Nat → NetResult) : FetchOutcome :=
  retry_loop net info_pages (.int 0) MAX_RETRIES 1

/-- `range(1, total_pages + 1)` for an integer page count. -/
def pageRange (n : Int) : List Nat :=
  (List.range n.toNat).map (fun k => k + 1)

/-- Iterating a Python value (the inner loop of
`[item for page in pages for item in page]`): a list yields its items, a
string its characters, a dict its keys; other values raise `TypeError`. -/
def pyIter (v : PyVal) : Except String (List PyVal) :=
  match v with
  | .list xs => .ok xs
  | .str s => .ok (s.toList.map (fun c => PyVal.str (String.mk [c])))
  | .dict kvs => .ok (kvs.map (fun kv => PyVal.str kv.1))
  | _ => .error "TypeError"

/-- `fetch_all_entities(base_url)` from `fetchers2.py`: `netBase` is the
oracle for the unparameterized total-pages request, `netPage p` the oracle
for page `p`. Gets the total page count, returns `[]` when it is 0,
otherwise gathers every page (`asyncio.gather` keeps task order) and
flattens the pages in page-number order. -/
def fetch_all_entities (netBase : Nat → NetResult)
    (netPage : Nat → Nat → NetResult) : Except String (List PyVal) := do
  let total_pages ← (get_total_pages netBase).result
  if PyVal.beq total_pages (.int 0) then .ok []
  else
    match total_pages with
    | .int n => do
        let pages ← (pageRange n).mapM (fun p => (fetch_page (netPage p)).result)
        let itemss ← pages.mapM pyIter
        .ok itemss.flatten
    | _ => .error "TypeError"

/-- Concrete scenario for the partial-failure claim: the base request always
answers 200 with `info.pages = 5`. -/
def c1_netBase : Nat → NetResult :=
  fun _ => .response 200 (.dict [("info", .dict [("pages", .int 5)])])

/-- Concrete scenario: 20 raw records on page `p`. -/
def c1_records (p : Nat) : List PyVal :=
  (List.range 20).map (fun j => PyVal.dict [("page", .int p), ("idx", .int j)])

/-- Concrete scenario: page 3 fails every attempt with a client error, every
other page answers 200 with its 20 records. -/
def c1_netPage : Nat → Nat → NetResult :=
  fun p _ =>
    if p = 3 then .clientError
    else .response 200 (.dict [("results", .list (c1_records p))])

/-- Concrete scenario: the per-page record lists actually obtained — pages
1, 2, 4, 5 contribute their 20 records, the failed page 3 contributes
none. -/
def c1_R (p : Nat) : List PyVal :=
  if p = 3 then [] else c1_records p

end Fetchers

section Observations

/-- Drop the binding of key `k` from a record: used to compare normalizer
outputs while ignoring the ingestion-timestamp field. -/
def stripKey (k : String) (d : RawRecord) : RawRecord :=
  d.filter (fun kv => kv.1 ≠ k)

/-- A nested object field is either absent or an actual dict: the inputs on
which `char.get(field, \x7b\x7d).get("name")` cannot raise. -/
def nestedFieldSafe (c : RawRecord) (f : String) : Prop :=
  dGet? c f = Option.none ∨ ∃ kvs, dGet? c f = Option.some (.dict kvs)

end Observations

section DictLemmas

theorem dGet?_dSet_self (d : RawRecord) (k : String) (v : PyVal) :
    dGet? (dSet d k v) k = Option.some v := by
  induction d with
  | nil => simp [dSet, dGet?]
  | cons kv rest ih =>
      by_cases h : kv.1 = k
      · simp [dSet, h, dGet?]
      · simp [dSet, h, dGet?, ih]

theorem dGet?_dSet_ne (d : RawRecord) (k k' : String) (v : PyVal)
    (h : k' ≠ k) : dGet? (dSet d k v) k' = dGet? d k' := by
  induction d with
  | nil => simp [dSet, dGet?, Ne.symm h]
  | cons kv rest ih =>
      by_cases hk : kv.1 = k
      · simp [dSet, hk, dGet?, Ne.symm h]
      · simp [dSet, hk, dGet?, ih]

theorem pvFind_pvSet_self (d : PyLookup) (k v : PyVal) :
    pvFind (pvSet d k v) k = Option.some v := by
  induction d with
  | nil => simp [pvSet, pvFind]
  | cons kv rest ih =>
      by_cases h : kv.1 = k
      · simp [pvSet, h, pvFind]
      · simp [pvSet, h, pvFind, ih]

end DictLemmas

section NormalizerTheorems

theorem getNestedName_absent (c : RawRecord) (f : String)
    (h : dGet? c f = Option.none) : getNestedName c f = .ok .none := by
  unfold getNestedName
  rw [h]

theorem getNestedName_dict (c : RawRecord) (f : String)
    (kvs : List (String × PyVal)) (h : dGet? c f = Option.some (.dict kvs)) :
    getNestedName c f = .ok (pyGet kvs "name") := by
  unfold getNestedName
  rw [h]

theorem extract_character_info_ok (c : RawRecord) (now : String)
    (ov lv : PyVal) (h1 : getNestedName c "origin" = .ok ov)
    (h2 : getNestedName c "location" = .ok lv) :
    extract_character_info c now =
      .ok [("id", pyGet c "id"), ("name", pyGet c "name"),
           ("status", pyGet c "status"), ("species", pyGet c "species"),
           ("gender", pyGet c "gender"), ("origin", ov), ("location", lv),
           ("image", pyGet c "image"), ("created", pyGet c "created"),
           ("created_by_ini", .str now)] := by
  unfold extract_character_info
  rw [h1, h2]
  rfl

theorem extract_character_info_err1 (c : RawRecord) (now msg : String)
    (h1 : getNestedName c "origin" = .error msg) :
    extract_character_info c now = .error msg := by
  unfold extract_character_info
  rw [h1]
  rfl

theorem extract_character_info_err2 (c : RawRecord) (now msg : String)
    (ov : PyVal) (h1 : getNestedName c "origin" = .ok ov)
    (h2 : getNestedName c "location" = .error msg) :
    extract_character_info c now = .error msg := by
  unfold extract_character_info
  rw [h1, h2]
  rfl

/-- **C5.** Normalization is deterministic: running any of the three entity
normalizers twice on the same raw record gives outputs that agree on every
field except the ingestion-timestamp field (`created_by_ini` for characters,
`created` for locations and episodes); the normalizers read nothing but
their input record and the clock. -/
theorem claim_C5_normalizers_deterministic
    (c l e : RawRecord) (t1 t2 : String) :
    (extract_character_info c t1).map (stripKey "created_by_ini")
        = (extract_character_info c t2).map (stripKey "created_by_ini")
    ∧ stripKey "created" (extract_location_info l t1)
        = stripKey "created" (extract_location_info l t2)
    ∧ stripKey "created" (extract_episode_info e t1)
        = stripKey "created" (extract_episode_info e t2) := by
  refine ⟨?_, rfl, rfl⟩
  cases h1 : getNestedName c "origin" with
  | error msg =>
      rw [extract_character_info_err1 c t1 msg h1,
          extract_character_info_err1 c t2 msg h1]
  | ok ov =>
      cases h2 : getNestedName c "location" with
      | error msg =>
          rw [extract_character_info_err2 c t1 msg ov h1 h2,
              extract_character_info_err2 c t2 msg ov h1 h2]
      | ok lv =>
          rw [extract_character_info_ok c t1 ov lv h1 h2,
              extract_character_info_ok c t2 ov lv h1 h2]
          rfl

/-- **C6 counterexample.** A raw character whose `origin` field is present
but `null` (Python `None`) makes the normalizer raise `AttributeError`
instead of returning an entity with a null field. -/
theorem claim_C6_counterexample :
    extract_character_info [("origin", PyVal.none)] "2025-09-16 13:05:17"
      = .error "AttributeError" := rfl

/-- **C6 (amended).** For every raw record whose nested `origin`/`location`
fields are absent (or actual objects), the normalizer returns an entity
without raising, and an absent nested field yields `null` in the output;
a nested field that is present but `null` raises instead (see the
counterexample). -/
theorem claim_C6_missing_nested_defaults (c : RawRecord) (now : String)
    (h1 : nestedFieldSafe c "origin") (h2 : nestedFieldSafe c "location") :
    ∃ e, extract_character_info c now = .ok e
      ∧ (dGet? c "origin" = Option.none → pyGet e "origin" = .none)
      ∧ (dGet? c "location" = Option.none → pyGet e "location" = .none) := by
  have g1 : ∃ ov, getNestedName c "origin" = .ok ov
      ∧ (dGet? c "origin" = Option.none → ov = .none) := by
    rcases h1 with h1 | ⟨kvs1, h1⟩
    · exact ⟨_, getNestedName_absent c "origin" h1, fun _ => rfl⟩
    · exact ⟨_, getNestedName_dict c "origin" kvs1 h1,
        fun hx => by rw [h1] at hx; cases hx⟩
  have g2 : ∃ lv, getNestedName c "location" = .ok lv
      ∧ (dGet? c "location" = Option.none → lv = .none) := by
    rcases h2 with h2 | ⟨kvs2, h2⟩
    · exact ⟨_, getNestedName_absent c "location" h2, fun _ => rfl⟩
    · exact ⟨_, getNestedName_dict c "location" kvs2 h2,
        fun hx => by rw [h2] at hx; cases hx⟩
  obtain ⟨ov, hov, hov0⟩ := g1
  obtain ⟨lv, hlv, hlv0⟩ := g2
  refine ⟨_, extract_character_info_ok c now ov lv hov hlv, ?_, ?_⟩
  · intro hx
    rw [hov0 hx]
    rfl
  · intro hx
    rw [hlv0 hx]
    rfl

/-- Witness for C6: a record with both nested fields absent normalizes to an
entity with null `origin` and `location`. -/
theorem claim_C6_missing_nested_defaults_witness :
    ∃ e, extract_character_info [("id", PyVal.int 1)] "T" = .ok e
      ∧ (dGet? [("id", PyVal.int 1)] "origin" = Option.none →
          pyGet e "origin" = .none)
      ∧ (dGet? [("id", PyVal.int 1)] "location" = Option.none →
          pyGet e "location" = .none) :=
  claim_C6_missing_nested_defaults [("id", PyVal.int 1)] "T"
    (Or.inl rfl) (Or.inl rfl)

end NormalizerTheorems

section ResolverTheorems

/-- **C7.** `build_location_lookup` is last-write-wins: whatever list of
entities precedes it, the final entity's name is mapped to the final
entity's id; in particular for `[⟨id 1, name X⟩, ⟨id 2, name X⟩]` the lookup
maps `X` to `2`. -/
theorem claim_C7_lookup_last_write_wins :
    (∀ (locs : List RawRecord) (loc : RawRecord) (nm idv : PyVal)
        (lk : PyLookup),
      pyIndex loc "name" = .ok nm → pyIndex loc "id" = .ok idv →
      build_location_lookup (locs ++ [loc]) = .ok lk →
      pvFind lk nm = Option.some idv)
    ∧ build_location_lookup
        [[("id", .int 1), ("name", .str "X")],
         [("id", .int 2), ("name", .str "X")]]
      = .ok [(.str "X", .int 2)] := by
  constructor
  · intro locs loc nm idv lk hn hi hb
    rw [build_location_lookup, List.foldlM_append] at hb
    cases hacc : List.foldlM location_lookup_step [] locs with
    | error msg => rw [hacc] at hb; cases hb
    | ok acc =>
        rw [hacc] at hb
        have : location_lookup_step acc loc = .ok (pvSet acc nm idv) := by
          unfold location_lookup_step
          rw [hn, hi]
          rfl
        simp only [List.foldlM, bind, Except.bind, this] at hb
        cases hb
        exact pvFind_pvSet_self acc nm idv
  · rfl

/-- Witness for C7: appending `⟨id 2, name X⟩` after `⟨id 1, name X⟩` makes
the lookup map `X` to `2`. -/
theorem claim_C7_lookup_last_write_wins_witness :
    pvFind [(.str "X", .int 2)] (.str "X") = Option.some (.int 2) :=
  claim_C7_lookup_last_write_wins.1
    [[("id", .int 1), ("name", .str "X")]]
    [("id", .int 2), ("name", .str "X")]
    (.str "X") (.int 2) [(.str "X", .int 2)] rfl rfl rfl

/-- **C9 (evaluation at the failing input).** `parse_pg_array` passes a
native list through and maps non-list/non-string values to `[]`, but the
serialized empty array `"\x7b\x7d"` parses to a one-element list holding the
empty string — not to the empty list the spec requires (`"".split(',')`
is `[""]` in Python). -/
theorem claim_C9_failing_eval :
    (∀ xs : List PyVal, parse_pg_array (.list xs) = xs)
    ∧ parse_pg_array PyVal.none = []
    ∧ parse_pg_array (.str "\x7b\x7d") = [PyVal.str ""] :=
  ⟨fun _ => rfl, rfl, rfl⟩

end ResolverTheorems

section PersisterTheorems

/-- **C10.** `insert_characters_with_fk` mutates the caller's character
dicts in place: afterwards every element of the list carries a
`location_id` key holding the looked-up id of its `location` name, and
every other key is bound exactly as before (this mutated list is what the
caller later writes to CSV). -/
theorem claim_C10_inplace_mutation (t : Table) (lookup : PyLookup)
    (characters : List RawRecord) :
    List.Forall₂
      (fun cin cout =>
        dGet? cout "location_id"
            = Option.some (lookupGet lookup (pyGet cin "location"))
          ∧ ∀ k, k ≠ "location_id" → dGet? cout k = dGet? cin k)
      characters ((insert_characters_with_fk t characters lookup).1) := by
  unfold insert_characters_with_fk
  rw [List.forall₂_map_right_iff]
  rw [List.forall₂_same]
  intro ch _
  exact ⟨dGet?_dSet_self ch "location_id" _,
    fun k hk => dGet?_dSet_ne ch "location_id" k _ hk⟩

/-- Witness for C10: a concrete character acquires `location_id = 10` from
the lookup and keeps its other keys. -/
theorem claim_C10_inplace_mutation_witness :
    List.Forall₂
      (fun cin cout =>
        dGet? cout "location_id"
            = Option.some (lookupGet [(.str "Earth", .int 10)]
                (pyGet cin "location"))
          ∧ ∀ k, k ≠ "location_id" → dGet? cout k = dGet? cin k)
      [[("id", PyVal.int 5), ("location", PyVal.str "Earth")]]
      ((insert_characters_with_fk []
          [[("id", PyVal.int 5), ("location", PyVal.str "Earth")]]
          [(.str "Earth", .int 10)]).1) :=
  claim_C10_inplace_mutation [] [(.str "Earth", .int 10)]
    [[("id", PyVal.int 5), ("location", PyVal.str "Earth")]]

/-- **C8.** Foreign-key resolution: the character's `location_id` becomes
the id that the lookup maps its free-text `location` name to, and `null`
when that name is absent from the lookup (first two conjuncts). Concretely,
with locations `⟨10, Earth⟩`, `⟨20, Mars⟩` and character
`⟨5, Rick, location Earth⟩`, the persisted character row carries
`location_id = 10` (third conjunct). -/
theorem claim_C8_location_fk_resolution :
    (∀ (lookup : PyLookup) (ch : RawRecord) (idv : PyVal),
      pvFind lookup (pyGet ch "location") = Option.some idv →
      dGet? (resolve_character_location lookup ch) "location_id"
        = Option.some idv)
    ∧ (∀ (lookup : PyLookup) (ch : RawRecord),
      pvFind lookup (pyGet ch "location") = Option.none →
      dGet? (resolve_character_location lookup ch) "location_id"
        = Option.some PyVal.none)
    ∧ (∃ lk rick row,
      build_location_lookup c8_locations = .ok lk
      ∧ extract_character_info c8_raw_rick "2025-09-16 13:05:17" = .ok rick
      ∧ (insert_characters_with_fk [] [rick] lk).2 = .ok [row]
      ∧ dGet? row "location_id" = Option.some (.int 10)
      ∧ dGet? row "id" = Option.some (.int 5)) := by
  refine ⟨?_, ?_, ?_⟩
  · intro lookup ch idv h
    unfold resolve_character_location lookupGet
    rw [h]
    exact dGet?_dSet_self ch "location_id" idv
  · intro lookup ch h
    unfold resolve_character_location lookupGet
    rw [h]
    exact dGet?_dSet_self ch "location_id" PyVal.none
  · exact ⟨_, _, _, rfl, rfl, rfl, rfl, rfl⟩

/-- Witness for C8: with the lookup `\x7bEarth ↦ 10\x7d`, a character whose
location is `Earth` resolves to `location_id = 10`, and one whose location
is `Pluto` resolves to `location_id = None`. -/
theorem claim_C8_location_fk_resolution_witness :
    dGet? (resolve_character_location [(.str "Earth", .int 10)]
        [("location", .str "Earth")]) "location_id"
      = Option.some (.int 10)
    ∧ dGet? (resolve_character_location [(.str "Earth", .int 10)]
        [("location", .str "Pluto")]) "location_id"
      = Option.some PyVal.none :=
  ⟨claim_C8_location_fk_resolution.1 [(.str "Earth", .int 10)]
      [("location", .str "Earth")] (.int 10) rfl,
   claim_C8_location_fk_resolution.2.1 [(.str "Earth", .int 10)]
      [("location", .str "Pluto")] rfl⟩

/-- **C4 counterexample.** With one well-formed url and one url whose
trailing segment is not numeric, `insert_relations` raises `ValueError` for
the whole call: no row is persisted, the well-formed url included, and the
error propagates to the caller (in `main.py` nothing catches it), rather
than failing only the malformed row. -/
theorem claim_C4_counterexample :
    insert_relations [] 1
      (.list [.str "https://rickandmortyapi.com/api/character/7",
              .str "https://rickandmortyapi.com/api/character/abc"])
      = .error "ValueError: invalid literal for int: abc" := rfl

/-- **C4 (amended).** A url whose trailing segment is numeric resolves to a
relationship row with that child id, but a url with a non-numeric trailing
segment makes the whole `insert_relations` call fail before anything is
inserted: when every url resolves the call appends all resolved rows
(conflicts ignored), and when any url fails to parse the call raises and no
row of the call is persisted. -/
theorem claim_C4_amended :
    (∀ (t : RelTable) (pid : Int) (urls : List PyVal) (rows : List RelRow),
      urls.mapM (resolve_relation pid) = .ok rows →
      insert_relations t pid (.list urls) = .ok (rows.foldl insertIgnore t))
    ∧ (∀ (t : RelTable) (pid : Int) (urls : List PyVal) (msg : String),
      urls.mapM (resolve_relation pid) = .error msg →
      insert_relations t pid (.list urls) = .error msg)
    ∧ resolve_relation 1 (.str "https://rickandmortyapi.com/api/character/7")
        = .ok (1, 7, "https://rickandmortyapi.com/api/character/7") := by
  refine ⟨?_, ?_, rfl⟩
  · intro t pid urls rows h
    cases urls with
    | nil =>
        cases h
        rfl
    | cons u us =>
        unfold insert_relations
        simp only [parse_pg_array, List.isEmpty_cons, if_neg Bool.false_ne_true]
        rw [h]
        rfl
  · intro t pid urls msg h
    cases urls with
    | nil => cases h
    | cons u us =>
        unfold insert_relations
        simp only [parse_pg_array, List.isEmpty_cons, if_neg Bool.false_ne_true]
        rw [h]
        rfl

/-- Witness for C4: a single well-formed url inserts exactly its resolved
row. -/
theorem claim_C4_amended_witness :
    insert_relations [] 1 (.list [.str "https://rickandmortyapi.com/api/character/7"])
      = .ok [(1, 7, "https://rickandmortyapi.com/api/character/7")] :=
  claim_C4_amended.1 [] 1 [.str "https://rickandmortyapi.com/api/character/7"]
    [(1, 7, "https://rickandmortyapi.com/api/character/7")] rfl

end PersisterTheorems

section FetcherTheorems

theorem isFailure_iff_successJson (r : NetResult) :
    r.isFailure = true ↔ r.successJson = Option.none := by
  cases r with
  | response status json =>
      by_cases hs : status = 200 <;>
        simp [NetResult.isFailure, NetResult.successJson, hs]
  | clientError => simp [NetResult.isFailure, NetResult.successJson]
  | timeout => simp [NetResult.isFailure, NetResult.successJson]

theorem retry_loop_succ_fail (net : Nat → NetResult)
    (onSuccess : PyVal → Except String PyVal) (degraded : PyVal)
    (fuel attempt : Nat) (h : (net attempt).successJson = Option.none) :
    retry_loop net onSuccess degraded (fuel + 1) attempt =
      ⟨(retry_loop net onSuccess degraded fuel (attempt + 1)).result,
       BACKOFF_FACTOR ^ (attempt - 1)
         :: (retry_loop net onSuccess degraded fuel (attempt + 1)).sleeps,
       (retry_loop net onSuccess degraded fuel (attempt + 1)).attemptsMade + 1,
       (retry_loop net onSuccess degraded fuel (attempt + 1)).errorLogged⟩ := by
  rw [retry_loop, h]

theorem retry_loop_succ_ok (net : Nat → NetResult)
    (onSuccess : PyVal → Except String PyVal) (degraded : PyVal)
    (fuel attempt : Nat) (json : PyVal)
    (h : (net attempt).successJson = Option.some json) :
    retry_loop net onSuccess degraded (fuel + 1) attempt =
      ⟨onSuccess json, [], 1, false⟩ := by
  rw [retry_loop, h]

theorem retry_loop_attempts_le (net : Nat → NetResult)
    (onSuccess : PyVal → Except String PyVal) (degraded : PyVal)
    (fuel : Nat) : ∀ attempt,
    (retry_loop net onSuccess degraded fuel attempt).attemptsMade ≤ fuel := by
  induction fuel with
  | zero => intro attempt; exact Nat.le_refl 0
  | succ fuel ih =>
      intro attempt
      cases h : (net attempt).successJson with
      | some json =>
          rw [retry_loop_succ_ok net onSuccess degraded fuel attempt json h]
          show 1 ≤ fuel + 1
          omega
      | none =>
          rw [retry_loop_succ_fail net onSuccess degraded fuel attempt h]
          show (retry_loop net onSuccess degraded fuel (attempt + 1)).attemptsMade + 1
              ≤ fuel + 1
          have := ih (attempt + 1)
          omega

theorem retry_loop_exhaust (net : Nat → NetResult)
    (onSuccess : PyVal → Except String PyVal) (degraded : PyVal) :
    ∀ (fuel attempt : Nat), 1 ≤ attempt →
    (∀ i, attempt ≤ i → i < attempt + fuel → (net i).successJson = Option.none) →
    retry_loop net onSuccess degraded fuel attempt =
      ⟨.ok degraded,
       (List.range fuel).map (fun k => BACKOFF_FACTOR ^ (attempt - 1 + k)),
       fuel, true⟩ := by
  intro fuel
  induction fuel with
  | zero => intro attempt _ _; rfl
  | succ fuel ih =>
      intro attempt ha h
      rw [retry_loop_succ_fail net onSuccess degraded fuel attempt
            (h attempt (Nat.le_refl _) (by omega))]
      rw [ih (attempt + 1) (by omega) (fun i h1 h2 => h i (by omega) (by omega))]
      have hs : (List.range (fuel + 1)).map
            (fun k => BACKOFF_FACTOR ^ (attempt - 1 + k))
          = BACKOFF_FACTOR ^ (attempt - 1)
            :: (List.range fuel).map
                (fun k => BACKOFF_FACTOR ^ (attempt + 1 - 1 + k)) := by
        rw [List.range_succ_eq_map, List.map_cons, List.map_map]
        refine congrArg₂ _ (by rw [Nat.add_zero])
          (List.map_congr_left (fun k _ => ?_))
        show BACKOFF_FACTOR ^ (attempt - 1 + (k + 1))
            = BACKOFF_FACTOR ^ (attempt + 1 - 1 + k)
        have harith : attempt - 1 + (k + 1) = attempt + 1 - 1 + k := by omega
        rw [harith]
      rw [hs]

theorem range_map_backoff :
    (List.range MAX_RETRIES).map (fun k => BACKOFF_FACTOR ^ (1 - 1 + k))
      = (List.range MAX_RETRIES).map (fun k => BACKOFF_FACTOR ^ k) :=
  List.map_congr_left (fun k _ => by rw [Nat.zero_add])

theorem fetch_page_exhausted (net : Nat → NetResult)
    (h : ∀ i, 1 ≤ i → i ≤ MAX_RETRIES → (net i).isFailure = true) :
    fetch_page net =
      ⟨.ok (.list []),
       (List.range MAX_RETRIES).map (fun k => BACKOFF_FACTOR ^ k),
       MAX_RETRIES, true⟩ := by
  unfold fetch_page
  rw [retry_loop_exhaust net page_results (.list []) MAX_RETRIES 1 (by omega)
        (fun i h1 h2 => (isFailure_iff_successJson (net i)).mp
          (h i h1 (by omega)))]
  rw [range_map_backoff]

theorem get_total_pages_exhausted (net : Nat → NetResult)
    (h : ∀ i, 1 ≤ i → i ≤ MAX_RETRIES → (net i).isFailure = true) :
    get_total_pages net =
      ⟨.ok (.int 0),
       (List.range MAX_RETRIES).map (fun k => BACKOFF_FACTOR ^ k),
       MAX_RETRIES, true⟩ := by
  unfold get_total_pages
  rw [retry_loop_exhaust net info_pages (.int 0) MAX_RETRIES 1 (by omega)
        (fun i h1 h2 => (isFailure_iff_successJson (net i)).mp
          (h i h1 (by omega)))]
  rw [range_map_backoff]

/-- **C3.** Both fetchers issue at most `MAX_RETRIES = 5` attempts, and when
every attempt hits a network error, a timeout, or a non-200 status the
function returns its degraded value (`[]` for `fetch_page`, `0` for
`get_total_pages`) with the final error logged, never raising: the sleeps
list records the backoff delay `BACKOFF_FACTOR ^ (attempt - 1) = 1.5^(k)`
for the k-th failed attempt, so the delay between attempt `i` and attempt
`i+1` is `1.5^(i-1)` seconds. -/
theorem claim_C3_retry_backoff_policy :
    (∀ net : Nat → NetResult,
      (fetch_page net).attemptsMade ≤ MAX_RETRIES
        ∧ (get_total_pages net).attemptsMade ≤ MAX_RETRIES)
    ∧ (∀ net : Nat → NetResult,
      (∀ i, 1 ≤ i → i ≤ MAX_RETRIES → (net i).isFailure = true) →
      fetch_page net
          = ⟨.ok (.list []),
             (List.range MAX_RETRIES).map (fun k => BACKOFF_FACTOR ^ k),
             MAX_RETRIES, true⟩
        ∧ get_total_pages net
          = ⟨.ok (.int 0),
             (List.range MAX_RETRIES).map (fun k => BACKOFF_FACTOR ^ k),
             MAX_RETRIES, true⟩) := by
  constructor
  · intro net
    exact ⟨retry_loop_attempts_le net page_results (.list []) MAX_RETRIES 1,
           retry_loop_attempts_le net info_pages (.int 0) MAX_RETRIES 1⟩
  · intro net h
    exact ⟨fetch_page_exhausted net h, get_total_pages_exhausted net h⟩

/-- Witness for C3: a network that always times out makes both fetchers use
exactly 5 attempts, sleep 1, 1.5, 2.25, 3.375, 5.0625 seconds, log the
error, and return their degraded value. -/
theorem claim_C3_retry_backoff_policy_witness :
    fetch_page (fun _ => NetResult.timeout)
        = ⟨.ok (.list []),
           (List.range MAX_RETRIES).map (fun k => BACKOFF_FACTOR ^ k),
           MAX_RETRIES, true⟩
      ∧ get_total_pages (fun _ => NetResult.timeout)
        = ⟨.ok (.int 0),
           (List.range MAX_RETRIES).map (fun k => BACKOFF_FACTOR ^ k),
           MAX_RETRIES, true⟩ :=
  claim_C3_retry_backoff_policy.2 (fun _ => NetResult.timeout)
    (fun _ _ _ => rfl)

theorem mapM_ok_of_forall {α β : Type} (l : List α) (f : α → Except String β)
    (g : α → β) (h : ∀ a ∈ l, f a = .ok (g a)) :
    l.mapM f = .ok (l.map g) := by
  induction l with
  | nil => rfl
  | cons a as ih =>
      simp only [List.mapM_cons, h a (List.mem_cons_self a as),
                 ih (fun x hx => h x (List.mem_cons_of_mem a hx))]
      rfl

/-- **C1.** When the total-pages probe reports `n` pages, `fetch_all_entities`
returns — without raising — the concatenation, in page-number order, of each
page's record list; a page whose every attempt fails contributes exactly the
empty list (second conjunct), so failed pages contribute zero records. -/
theorem claim_C1_partial_page_failure
    (netBase : Nat → NetResult) (netPage : Nat → Nat → NetResult)
    (n : Int) (R : Nat → List PyVal)
    (hbase : (get_total_pages netBase).result = .ok (.int n))
    (hpages : ∀ p ∈ pageRange n,
      (fetch_page (netPage p)).result = .ok (.list (R p))) :
    fetch_all_entities netBase netPage = .ok ((pageRange n).map R).flatten
    ∧ ∀ p, (∀ i, 1 ≤ i → i ≤ MAX_RETRIES → (netPage p i).isFailure = true) →
        (fetch_page (netPage p)).result = .ok (.list []) := by
  constructor
  · unfold fetch_all_entities
    rw [hbase]
    simp only [bind, Except.bind]
    by_cases hn : n = 0
    · subst hn
      rfl
    · have hb : PyVal.beq (.int n) (.int 0) = false := by
        simp [PyVal.beq, hn]
      rw [hb]
      simp only [Bool.false_eq_true, if_false]
      rw [mapM_ok_of_forall (pageRange n) _ (fun p => PyVal.list (R p)) hpages]
      simp only [bind, Except.bind]
      rw [mapM_ok_of_forall ((pageRange n).map (fun p => PyVal.list (R p)))
            pyIter
            (fun v => match v with | PyVal.list xs => xs | _ => [])
            (by
              intro v hv
              obtain ⟨p, hp, rfl⟩ := List.mem_map.mp hv
              rfl)]
      rw [List.map_map]
      rfl
  · intro p hp
    rw [fetch_page_exhausted (netPage p) hp]

/-- Witness for C1: 5 pages of 20 records each with page 3 failing all its
retries — `fetch_all_entities` returns the 80 records of pages 1, 2, 4, 5
in page order. -/
theorem claim_C1_partial_page_failure_witness :
    fetch_all_entities c1_netBase c1_netPage
        = .ok ((pageRange 5).map c1_R).flatten
      ∧ (((pageRange 5).map c1_R).flatten).length = 80 := by
  refine ⟨(claim_C1_partial_page_failure c1_netBase c1_netPage 5 c1_R rfl ?_).1, rfl⟩
  have hpr : pageRange 5 = [1, 2, 3, 4, 5] := rfl
  intro p hp
  rw [hpr] at hp
  fin_cases hp <;> rfl

end FetcherTheorems

section UpsertIdempotence

theorem dGet?_eq_none_of_not_mem (d : RawRecord) (k : String)
    (h : k ∉ d.map (fun kv => kv.1)) : dGet? d k = Option.none := by
  induction d with
  | nil => rfl
  | cons kv rest ih =>
      rw [List.map_cons, List.mem_cons] at h
      push_neg at h
      rw [dGet?, if_neg (fun hh => h.1 hh.symm)]
      exact ih h.2

theorem keysOf_applyCU (old new : Row) :
    keysOf (applyConflictUpdate old new) = keysOf old := by
  unfold keysOf applyConflictUpdate
  rw [List.map_map]
  refine List.map_congr_left (fun kv _ => ?_)
  by_cases h : kv.1 ≠ "id" ∧ new.any (fun nv => nv.1 = kv.1)
  · rw [Function.comp_apply, if_pos h]
  · rw [Function.comp_apply, if_neg h]

theorem rowKey_applyCU (old new : Row) :
    rowKey (applyConflictUpdate old new) = rowKey old := by
  unfold rowKey applyConflictUpdate
  induction old with
  | nil => rfl
  | cons kv rest ih =>
      by_cases hid : kv.1 = "id"
      · have hcond : ¬(kv.1 ≠ "id" ∧ new.any (fun nv => nv.1 = kv.1)) :=
          fun hc => hc.1 hid
        rw [List.map_cons, if_neg hcond, dGet?, dGet?, if_pos hid, if_pos hid]
      · by_cases hany : new.any (fun nv => nv.1 = kv.1)
        · rw [List.map_cons, if_pos ⟨hid, hany⟩, dGet?, dGet?, if_neg hid,
              if_neg hid]
          exact ih
        · have hcond : ¬(kv.1 ≠ "id" ∧ new.any (fun nv => nv.1 = kv.1)) :=
            fun hc => hany hc.2
          rw [List.map_cons, if_neg hcond, dGet?, dGet?, if_neg hid, if_neg hid]
          exact ih

theorem any_key_of_keysOf_eq (a b : Row) (k : String)
    (h : keysOf a = keysOf b) :
    a.any (fun nv => nv.1 = k) = b.any (fun nv => nv.1 = k) := by
  have hgen : ∀ r : Row, r.any (fun nv => nv.1 = k)
      = (keysOf r).any (fun s => s = k) := by
    intro r
    induction r with
    | nil => rfl
    | cons kv rest ih => simp [keysOf, List.any_cons, ih]
  rw [hgen a, hgen b, h]

theorem applyCU_comp (r a b : Row) (hkeys : keysOf a = keysOf b) :
    applyConflictUpdate (applyConflictUpdate r a) b
      = applyConflictUpdate r b := by
  unfold applyConflictUpdate
  rw [List.map_map]
  refine List.map_congr_left (fun kv _ => ?_)
  rw [Function.comp_apply]
  have hany : a.any (fun nv => nv.1 = kv.1) = b.any (fun nv => nv.1 = kv.1) :=
    any_key_of_keysOf_eq a b kv.1 hkeys
  by_cases hc : kv.1 ≠ "id" ∧ a.any (fun nv => nv.1 = kv.1)
  · -- first update rewrote the entry; key is unchanged, so the second
    -- update rewrites it again with b's value
    have hcb : kv.1 ≠ "id" ∧ b.any (fun nv => nv.1 = kv.1) :=
      ⟨hc.1, by rw [← hany]; exact hc.2⟩
    rw [if_pos hc, if_pos hcb, if_pos hcb]
  · rw [if_neg hc]

theorem applyCU_eq_of_same (old : Row) : ∀ new : Row,
    keysOf old = keysOf new → (keysOf new).Nodup →
    rowKey old = rowKey new →
    applyConflictUpdate old new = new := by
  induction old with
  | nil =>
      intro new hkeys _ _
      cases new with
      | nil => rfl
      | cons lw new' => exact absurd hkeys (by simp [keysOf])
  | cons kv old' ih =>
      intro new hkeys hnd hkey
      cases new with
      | nil => exact absurd hkeys (by simp [keysOf])
      | cons lw new' =>
          have hk1 : kv.1 = lw.1 := by
            have h := hkeys
            simp only [keysOf, List.map_cons, List.cons.injEq] at h
            exact h.1
          have hkeys' : keysOf old' = keysOf new' := by
            have h := hkeys
            simp only [keysOf, List.map_cons, List.cons.injEq] at h
            exact h.2
          have hlwnot : lw.1 ∉ keysOf new' := by
            have h := hnd
            simp only [keysOf, List.map_cons, List.nodup_cons] at h
            exact h.1
          have hnd' : (keysOf new').Nodup := by
            have h := hnd
            simp only [keysOf, List.map_cons, List.nodup_cons] at h
            exact h.2
          unfold applyConflictUpdate
          rw [List.map_cons]
          refine congrArg₂ List.cons ?_ ?_
          · -- the head entry becomes the incoming head entry
            by_cases hid : kv.1 = "id"
            · have hcond : ¬(kv.1 ≠ "id"
                  ∧ (lw :: new').any (fun nv => nv.1 = kv.1)) :=
                fun hc => hc.1 hid
              rw [if_neg hcond]
              have hv2 : kv.2 = lw.2 := by
                have h := hkey
                unfold rowKey at h
                rw [dGet?, dGet?, if_pos hid, if_pos (hk1 ▸ hid)] at h
                exact Option.some.inj h
              exact Prod.ext hk1 hv2
            · have hany : (lw :: new').any (fun nv => nv.1 = kv.1) = true := by
                simp [List.any_cons, hk1]
              rw [if_pos ⟨hid, hany⟩]
              have hpg : pyGet (lw :: new') kv.1 = lw.2 := by
                unfold pyGet
                rw [dGet?, if_pos hk1.symm]
                rfl
              rw [hpg]
              exact Prod.ext hk1 rfl
          · -- the tail entries are rewritten to the incoming tail
            have hstep : ∀ x ∈ old',
                (if x.1 ≠ "id" ∧ (lw :: new').any (fun nv => nv.1 = x.1)
                 then (x.1, pyGet (lw :: new') x.1) else x)
                  = (if x.1 ≠ "id" ∧ new'.any (fun nv => nv.1 = x.1)
                     then (x.1, pyGet new' x.1) else x) := by
              intro x hx
              have hxk : x.1 ∈ keysOf new' := by
                rw [← hkeys']
                exact List.mem_map_of_mem (fun kv => kv.1) hx
              have hxlw : ¬lw.1 = x.1 := fun hcontra => by
                rw [hcontra] at hlwnot
                exact hlwnot hxk
              have hany : (lw :: new').any (fun nv => nv.1 = x.1)
                  = new'.any (fun nv => nv.1 = x.1) := by
                simp [List.any_cons, hxlw]
              have hpg : pyGet (lw :: new') x.1 = pyGet new' x.1 := by
                unfold pyGet
                rw [dGet?, if_neg hxlw]
              rw [hany, hpg]
            rw [List.map_congr_left hstep]
            refine ih new' hkeys' hnd' ?_
            by_cases hid : kv.1 = "id"
            · have hnotold : "id" ∉ keysOf old' := by
                rw [hkeys']
                rw [hk1] at hid
                rw [hid] at hlwnot
                exact hlwnot
              have hnotnew : "id" ∉ keysOf new' := by
                rw [← hkeys']
                exact hnotold
              rw [rowKey, rowKey, dGet?_eq_none_of_not_mem old' "id" hnotold,
                  dGet?_eq_none_of_not_mem new' "id" hnotnew]
            · have h := hkey
              unfold rowKey at h ⊢
              rw [dGet?, dGet?, if_neg hid, if_neg (fun hc => hid (hk1.trans hc))]
                at h
              exact h

theorem containsKey_upsert_self (t : Table) (new : Row) :
    containsKey (upsertRow t new) (rowKey new) := by
  induction t with
  | nil => exact ⟨new, by rw [upsertRow]; exact List.mem_singleton.mpr rfl, rfl⟩
  | cons r rs ih =>
      by_cases h : rowKey r = rowKey new
      · refine ⟨applyConflictUpdate r new, ?_, ?_⟩
        · rw [upsertRow, if_pos h]
          exact List.mem_cons_self _ _
        · rw [rowKey_applyCU]
          exact h
      · obtain ⟨w, hw, hwk⟩ := ih
        refine ⟨w, ?_, hwk⟩
        rw [upsertRow, if_neg h]
        exact List.mem_cons_of_mem r hw

theorem containsKey_upsert_mono (t : Table) (new : Row) (k : Option PyVal)
    (h : containsKey t k) : containsKey (upsertRow t new) k := by
  induction t with
  | nil => obtain ⟨w, hw, _⟩ := h; cases hw
  | cons r rs ih =>
      obtain ⟨w, hw, hwk⟩ := h
      by_cases hr : rowKey r = rowKey new
      · rw [upsertRow, if_pos hr]
        rcases List.mem_cons.mp hw with rfl | hw2
        · exact ⟨applyConflictUpdate w new, List.mem_cons_self _ _,
            by rw [rowKey_applyCU]; exact hwk⟩
        · exact ⟨w, List.mem_cons_of_mem _ hw2, hwk⟩
      · rw [upsertRow, if_neg hr]
        rcases List.mem_cons.mp hw with rfl | hw2
        · exact ⟨w, List.mem_cons_self _ _, hwk⟩
        · obtain ⟨w2, hw3, hw3k⟩ := ih ⟨w, hw2, hwk⟩
          exact ⟨w2, List.mem_cons_of_mem _ hw3, hw3k⟩

theorem upsert_absorb (t : Table) (a b : Row)
    (hkey : rowKey a = rowKey b) (hkeys : keysOf a = keysOf b)
    (hnd : (keysOf b).Nodup) :
    upsertRow (upsertRow t a) b = upsertRow t b := by
  induction t with
  | nil =>
      rw [upsertRow, upsertRow, upsertRow, if_pos hkey,
          applyCU_eq_of_same a b hkeys hnd hkey]
  | cons r rs ih =>
      by_cases hr : rowKey r = rowKey a
      · have hrb : rowKey r = rowKey b := hr.trans hkey
        rw [upsertRow, if_pos hr, upsertRow,
            if_pos (by rw [rowKey_applyCU]; exact hrb),
            upsertRow, if_pos hrb, applyCU_comp r a b hkeys]
      · have hrb : ¬rowKey r = rowKey b := fun hc => hr (hc.trans hkey.symm)
        rw [upsertRow, if_neg hr, upsertRow, if_neg hrb, upsertRow, if_neg hrb,
            ih]

theorem upsert_comm (t : Table) (a b : Row)
    (hab : rowKey a ≠ rowKey b) (hc : containsKey t (rowKey a)) :
    upsertRow (upsertRow t a) b = upsertRow (upsertRow t b) a := by
  induction t with
  | nil => obtain ⟨w, hw, _⟩ := hc; cases hw
  | cons r rs ih =>
      by_cases hra : rowKey r = rowKey a
      · have hrb : ¬rowKey r = rowKey b := fun h => hab (hra.symm.trans h)
        rw [upsertRow, if_pos hra, upsertRow,
            if_neg (by rw [rowKey_applyCU]; exact hrb),
            upsertRow, if_neg hrb, upsertRow, if_pos hra]
      · by_cases hrb : rowKey r = rowKey b
        · rw [upsertRow, if_neg hra, upsertRow, if_pos hrb, upsertRow,
              if_pos hrb, upsertRow,
              if_neg (by rw [rowKey_applyCU]; exact hra)]
        · obtain ⟨w, hw, hwk⟩ := hc
          rcases List.mem_cons.mp hw with rfl | hw2
          · exact absurd hwk hra
          · rw [upsertRow, if_neg hra, upsertRow, if_neg hrb, upsertRow,
                if_neg hrb, upsertRow, if_neg hra, ih ⟨w, hw2, hwk⟩]

theorem except_bind_ok {α β : Type} (a : α) (f : α → Except String β) :
    (Except.ok a >>= f) = f a := rfl

theorem except_bind_error {α β : Type} (e : String)
    (f : α → Except String β) :
    ((Except.error e : Except String α) >>= f) = .error e := rfl

theorem mapM_ok_length {α β : Type} (l : List α) (f : α → Except String β) :
    ∀ out, l.mapM f = .ok out → out.length = l.length := by
  induction l with
  | nil =>
      intro out h
      rw [List.mapM_nil] at h
      cases h
      rfl
  | cons a as ih =>
      intro out h
      rw [List.mapM_cons] at h
      cases ha : f a with
      | error e => rw [ha, except_bind_error] at h; cases h
      | ok v =>
          rw [ha, except_bind_ok] at h
          cases has : as.mapM f with
          | error e => rw [has, except_bind_error] at h; cases h
          | ok vs =>
              rw [has, except_bind_ok] at h
              cases h
              rw [List.length_cons, List.length_cons, ih vs has]

theorem mapM_ok_mem {α β : Type} (l : List α) (f : α → Except String β) :
    ∀ out, l.mapM f = .ok out → ∀ y ∈ out, ∃ x ∈ l, f x = .ok y := by
  induction l with
  | nil =>
      intro out h y hy
      rw [List.mapM_nil] at h
      cases h
      cases hy
  | cons a as ih =>
      intro out h y hy
      rw [List.mapM_cons] at h
      cases ha : f a with
      | error e => rw [ha, except_bind_error] at h; cases h
      | ok v =>
          rw [ha, except_bind_ok] at h
          cases has : as.mapM f with
          | error e => rw [has, except_bind_error] at h; cases h
          | ok vs =>
              rw [has, except_bind_ok] at h
              cases h
              rcases List.mem_cons.mp hy with rfl | hy2
              · exact ⟨a, List.mem_cons_self _ _, ha⟩
              · obtain ⟨x, hx, hfx⟩ := ih vs has y hy2
                exact ⟨x, List.mem_cons_of_mem _ hx, hfx⟩

theorem keysOf_zip (cols : List String) (vals : List PyVal)
    (h : cols.length ≤ vals.length) : keysOf (cols.zip vals) = cols := by
  unfold keysOf
  exact List.map_fst_zip cols vals h

theorem containsKey_fold_mono (rows : List Row) (k : Option PyVal) :
    ∀ t, containsKey t k → containsKey (upsertFold t rows) k := by
  induction rows with
  | nil => intro t h; exact h
  | cons b rows ih =>
      intro t h
      exact ih (upsertRow t b) (containsKey_upsert_mono t b k h)

theorem fold_absorb (cols : List String) (hnd : cols.Nodup) :
    ∀ rows : List Row, (∀ r ∈ rows, keysOf r = cols) →
    ∀ a : Row, keysOf a = cols →
    ∀ t, containsKey t (rowKey a) → (∃ b ∈ rows, rowKey b = rowKey a) →
    upsertFold (upsertRow t a) rows = upsertFold t rows := by
  intro rows
  induction rows with
  | nil =>
      intro _ a _ t _ hex
      obtain ⟨b, hb, _⟩ := hex
      cases hb
  | cons b rows ih =>
      intro hrows a ha t hc hex
      have hbcols : keysOf b = cols := hrows b (List.mem_cons_self _ _)
      by_cases hb : rowKey b = rowKey a
      · show upsertFold (upsertRow (upsertRow t a) b) rows
            = upsertFold (upsertRow t b) rows
        rw [upsert_absorb t a b hb.symm (ha.trans hbcols.symm)
              (by rw [hbcols]; exact hnd)]
      · obtain ⟨w, hw, hwk⟩ := hex
        rcases List.mem_cons.mp hw with rfl | hw2
        · exact absurd hwk hb
        · show upsertFold (upsertRow (upsertRow t a) b) rows
              = upsertFold (upsertRow t b) rows
          rw [upsert_comm t a b (fun h => hb h.symm) hc]
          exact ih (fun r hr => hrows r (List.mem_cons_of_mem _ hr)) a ha
            (upsertRow t b) (containsKey_upsert_mono t b _ hc) ⟨w, hw2, hwk⟩

theorem fold_stable :
    ∀ rows : List Row, ∀ d : Row,
    (∀ b ∈ rows, rowKey b ≠ rowKey d) →
    ∀ t, containsKey t (rowKey d) → upsertRow t d = t →
    upsertRow (upsertFold t rows) d = upsertFold t rows := by
  intro rows
  induction rows with
  | nil => intro d _ t _ hs; exact hs
  | cons b rows ih =>
      intro d hne t hc hs
      have hbd : rowKey b ≠ rowKey d := hne b (List.mem_cons_self _ _)
      have hstep : upsertRow (upsertRow t b) d = upsertRow t b := by
        rw [← upsert_comm t d b (fun h => hbd h.symm) hc, hs]
      exact ih d (fun x hx => hne x (List.mem_cons_of_mem _ hx)) (upsertRow t b)
        (containsKey_upsert_mono t b _ hc) hstep

theorem upsertFold_idem (cols : List String) (hnd : cols.Nodup) :
    ∀ rows : List Row, (∀ r ∈ rows, keysOf r = cols) →
    ∀ t, upsertFold (upsertFold t rows) rows = upsertFold t rows := by
  intro rows
  induction rows with
  | nil => intro _ t; rfl
  | cons d rows ih =>
      intro hrows t
      have hd : keysOf d = cols := hrows d (List.mem_cons_self _ _)
      have hrows2 : ∀ r ∈ rows, keysOf r = cols :=
        fun r hr => hrows r (List.mem_cons_of_mem _ hr)
      show upsertFold (upsertRow (upsertFold (upsertRow t d) rows) d) rows
          = upsertFold (upsertRow t d) rows
      by_cases hex : ∃ b ∈ rows, rowKey b = rowKey d
      · have hcont : containsKey (upsertFold (upsertRow t d) rows) (rowKey d) :=
          containsKey_fold_mono rows _ (upsertRow t d)
            (containsKey_upsert_self t d)
        rw [fold_absorb cols hnd rows hrows2 d hd _ hcont hex]
        exact ih hrows2 (upsertRow t d)
      · push_neg at hex
        rw [fold_stable rows d hex (upsertRow t d)
              (containsKey_upsert_self t d)
              (upsert_absorb t d d rfl rfl (by rw [hd]; exact hnd))]
        exact ih hrows2 (upsertRow t d)

/-- **C2.** The batch upsert is idempotent: for a non-empty entity list and
any prior table state, when the first `batch_insert` succeeds and yields
table state `t2`, running the same `batch_insert` again returns exactly
`t2` — in particular the row count is unchanged — because rows are keyed by
the primary-key `id` column and a conflicting insert overwrites the
existing row's other columns instead of appending a row. -/
theorem claim_C2_upsert_idempotent (t t2 : Table) (data : List RawRecord)
    (columns : List String) (hne : data ≠ []) (hid : "id" ∈ columns)
    (hnd : columns.Nodup)
    (h1 : batch_insert t data columns = .ok t2) :
    batch_insert t2 data columns = .ok t2 := by
  unfold batch_insert at h1 ⊢
  rw [if_neg (by simp [List.isEmpty_iff, hne])] at h1 ⊢
  cases hv : data.mapM (fun row => columns.mapM (fun c => pyIndex row c)) with
  | error e =>
      rw [hv] at h1
      exact absurd h1 (fun hcontra => Except.noConfusion hcontra)
  | ok values =>
      rw [hv] at h1
      replace h1 : upsertFold t (values.map (fun vals => columns.zip vals)) = t2 :=
        Except.ok.inj h1
      subst h1
      show (Except.ok
            (upsertFold
              (upsertFold t (values.map (fun vals => columns.zip vals)))
              (values.map (fun vals => columns.zip vals)))
          : Except String Table)
        = Except.ok (upsertFold t (values.map (fun vals => columns.zip vals)))
      have hkeys : ∀ r ∈ values.map (fun vals => columns.zip vals),
          keysOf r = columns := by
        intro r hr
        obtain ⟨vals, hvmem, rfl⟩ := List.mem_map.mp hr
        obtain ⟨row, _, hfr⟩ := mapM_ok_mem data _ values hv vals hvmem
        have hlen : vals.length = columns.length := mapM_ok_length columns _ vals hfr
        exact keysOf_zip columns vals (by omega)
      rw [upsertFold_idem columns hnd _ hkeys t]

/-- Witness for C2: re-running a two-row insert (with a duplicate-free
column list containing `id`) returns the same two-row table state. -/
theorem claim_C2_upsert_idempotent_witness :
    batch_insert
        [[("id", PyVal.int 1), ("name", PyVal.str "A")],
         [("id", PyVal.int 2), ("name", PyVal.str "C")]]
        [[("id", PyVal.int 1), ("name", PyVal.str "A")],
         [("id", PyVal.int 2), ("name", PyVal.str "C")]]
        ["id", "name"]
      = .ok [[("id", PyVal.int 1), ("name", PyVal.str "A")],
             [("id", PyVal.int 2), ("name", PyVal.str "C")]] :=
  claim_C2_upsert_idempotent []
    [[("id", PyVal.int 1), ("name", PyVal.str "A")],
     [("id", PyVal.int 2), ("name", PyVal.str "C")]]
    [[("id", PyVal.int 1), ("name", PyVal.str "A")],
     [("id", PyVal.int 2), ("name", PyVal.str "C")]]
    ["id", "name"] (List.cons_ne_nil _ _) (by decide) (by decide) rfl

end UpsertIdempotence

end RickMorty
